import Mathlib

/-!
Verification of the transit-map-generator building pipeline:
the height estimator and tile-grid indexer of
`src/map-generation/osm-buildings-tiler.py` (shared with
`src/map-generation/osm-buildings.py`), the geometry filtering of the
tiler's main loop, and the pack encoder of
`src/map-generation/pack-buildings.py`.

Python floating-point values are modelled by `PyFloat`: a finite value
is carried exactly as a rational, and the three non-finite IEEE values
are explicit constructors.  Python exceptions are modelled with
`Except PyErr`.
-/

/-- Model of a Python float: exact rational for finite values, plus the
non-finite IEEE values `nan`, `inf`, `-inf`. -/
inductive PyFloat where
  | val (q : ℚ)
  | nan
  | inf
  | ninf
deriving DecidableEq

/-- `math.isfinite`. -/
def PyFloat.isfinite : PyFloat → Bool
  | .val _ => true
  | _ => false

/-- `math.isnan`. -/
def PyFloat.isnan : PyFloat → Bool
  | .nan => true
  | _ => false

/-- IEEE multiplication on the model: finite times finite is exact,
`nan` absorbs, and infinities follow sign rules with `inf * 0 = nan`. -/
def PyFloat.mul : PyFloat → PyFloat → PyFloat
  | .val a, .val b => .val (a * b)
  | .nan, _ => .nan
  | _, .nan => .nan
  | .inf, .val b => if 0 < b then .inf else if b < 0 then .ninf else .nan
  | .ninf, .val b => if 0 < b then .ninf else if b < 0 then .inf else .nan
  | .val a, .inf => if 0 < a then .inf else if a < 0 then .ninf else .nan
  | .val a, .ninf => if 0 < a then .ninf else if a < 0 then .inf else .nan
  | .inf, .inf => .inf
  | .inf, .ninf => .ninf
  | .ninf, .inf => .ninf
  | .ninf, .ninf => .inf

/-- Python exceptions that the modelled code can raise. -/
inductive PyErr where
  | valueError
  | typeError
  | overflowError
deriving DecidableEq

/-- A value stored in a tag dictionary: a string, a number, or `None`
(also the result of `dict.get` on a missing key). -/
inductive PyVal where
  | str (s : String)
  | num (x : PyFloat)
  | none_
deriving DecidableEq

/-- Python truthiness: `None`, the empty string and numeric zero are
falsy; every other value (including `nan` and `inf`) is truthy. -/
def truthy : PyVal → Bool
  | .none_ => false
  | .str s => !s.isEmpty
  | .num (.val q) => if q = 0 then false else true
  | .num _ => true

/-- A tag dictionary, in insertion order; keys are unique in a Python
dict (`List.lookup` returns the value of the first matching key). -/
abbrev Tags := List (String × PyVal)

/-- `tags.get(k)`: the stored value, or `None` when the key is absent. -/
def pyGet (tags : Tags) (k : String) : PyVal :=
  match List.lookup k (tags : List (String × PyVal)) with
  | some v => v
  | none => .none_

/-- ASCII whitespace recognised by `str.strip()` (the forms relevant to
the modelled inputs). -/
def isPyWS (c : Char) : Bool :=
  c = ' ' || c = '\t' || c = '\n' || c = '\r'

/-- Strip whitespace from both ends of a character list. -/
def stripBoth (l : List Char) : List Char :=
  ((l.dropWhile isPyWS).reverse.dropWhile isPyWS).reverse

/-- `str.strip()`. -/
def pyStrip (s : String) : String :=
  String.mk (stripBoth s.data)

/-- `str.replace("m", "")`: removes every occurrence of the character
`m` anywhere in the string (not only a trailing one). -/
def removeAllM (s : String) : String :=
  String.mk (s.data.filter (fun c => decide (c ≠ 'm')))

/-- Numeric value of a decimal digit character. -/
def digitVal (c : Char) : ℕ := c.toNat - 48

/-- Value of a digit run read most-significant first. -/
def digitsVal (ds : List Char) : ℕ :=
  ds.foldl (fun a c => 10 * a + digitVal c) 0

/-- Consume an optional leading sign; returns whether it was `-`. -/
def parseSign : List Char → Bool × List Char
  | '-' :: r => (true, r)
  | '+' :: r => (false, r)
  | r => (false, r)

/-- Consume an optional exponent part closing the literal; `none` when
trailing characters remain. -/
def parseExp (base : ℚ) : List Char → Option ℚ
  | [] => some base
  | 'e' :: r =>
    let p := parseSign r
    let es := p.2.takeWhile Char.isDigit
    let r3 := p.2.dropWhile Char.isDigit
    if es.isEmpty || !r3.isEmpty then none
    else some (if p.1 then base / 10 ^ digitsVal es else base * 10 ^ digitsVal es)
  | _ => none

/-- Mantissa of a Python float literal: digits with an optional point
and fraction, followed by an optional exponent. -/
def parseNumBody (cs : List Char) : Option ℚ :=
  let ds := cs.takeWhile Char.isDigit
  let r1 := cs.dropWhile Char.isDigit
  match r1 with
  | '.' :: r2 =>
    let fs := r2.takeWhile Char.isDigit
    let r3 := r2.dropWhile Char.isDigit
    if ds.isEmpty && fs.isEmpty then none
    else parseExp ((digitsVal ds : ℚ) + (digitsVal fs : ℚ) / 10 ^ fs.length) r3
  | _ =>
    if ds.isEmpty then none
    else parseExp (digitsVal ds : ℚ) r1

/-- Python `float(string)`: surrounding whitespace is allowed, the
literal is case-insensitive, and `inf`/`infinity`/`nan` are accepted;
`none` models the `ValueError` raised on anything else. -/
def pyParseFloat (s : String) : Option PyFloat :=
  let cs := (stripBoth s.data).map Char.toLower
  let p := parseSign cs
  if p.2 = ['i', 'n', 'f'] || p.2 = ['i', 'n', 'f', 'i', 'n', 'i', 't', 'y'] then
    some (if p.1 then .ninf else .inf)
  else if p.2 = ['n', 'a', 'n'] then some .nan
  else
    match parseNumBody p.2 with
    | some q => some (.val (if p.1 then -q else q))
    | none => none

deriving instance DecidableEq for Except

/-- Configuration of the height estimator: `DEFAULT_HEIGHT` and
`LEVEL_HEIGHT`, externalized as parameters (both are finite float
literals in the source). -/
structure HeightCfg where
  defaultHeight : ℚ
  levelHeight : ℚ
deriving DecidableEq

/-- `float(v)` applied to a tag value: parses a string (raising
`ValueError` on failure), is the identity on a number, and raises
`TypeError` on `None`. -/
def floatOfVal : PyVal → Except PyErr PyFloat
  | .str s =>
    match pyParseFloat s with
    | some v => .ok v
    | none => .error .valueError
  | .num x => .ok x
  | .none_ => .error .typeError

/-- `float(str(h).replace("m", "").strip())` from the first rule of
`get_height`.  For a numeric `h`, `str(h)` contains neither `m` nor
whitespace and `float(str(h))` returns `h` exactly, so that case is the
identity.  For `None` (unreachable under the truthiness guard),
`float("None")` raises `ValueError`. -/
def rule1Val : PyVal → Except PyErr PyFloat
  | .str s =>
    match pyParseFloat (pyStrip (removeAllM s)) with
    | some v => .ok v
    | none => .error .valueError
  | .num x => .ok x
  | .none_ => .error .valueError

/-- The tail of `get_height` after the explicit-height rule: the
`building:levels` rule followed by the default
(`osm-buildings-tiler.py` lines 28–37). -/
def heightTail (cfg : HeightCfg) (tags : Tags) : Except PyErr PyFloat :=
  if truthy (pyGet tags "building:levels") then
    match floatOfVal (pyGet tags "building:levels") with
    | .ok v =>
      if (v.mul (.val cfg.levelHeight)).isfinite then .ok (v.mul (.val cfg.levelHeight))
      else .ok (.val cfg.defaultHeight)
    | .error .valueError => .ok (.val cfg.defaultHeight)
    | .error e => .error e
  else .ok (.val cfg.defaultHeight)

/-- `get_height` from `osm-buildings-tiler.py` lines 17–37 (the same
function appears in `osm-buildings.py` lines 16–38): the explicit
height tag rule, then the level-count rule, then the default.  A caught
`ValueError` falls through; any other exception propagates. -/
def get_height (cfg : HeightCfg) (tags : Tags) : Except PyErr PyFloat :=
  if truthy (pyGet tags "height") then
    match rule1Val (pyGet tags "height") with
    | .ok v => if v.isfinite then .ok v else heightTail cfg tags
    | .error .valueError => heightTail cfg tags
    | .error e => .error e
  else heightTail cfg tags

/-- Modelled from the spec: "strip a trailing unit suffix and
surrounding whitespace" — surrounding whitespace is stripped and one
trailing `m` unit is dropped, leaving the interior of the string
untouched. -/
def stripUnitSuffix (s : String) : String :=
  let t := pyStrip s
  pyStrip (if t.data.getLast? = some 'm' then String.mk t.data.dropLast else t)

/-- Modelled from the spec: the first rule of the height estimator as
§4.2 words it, parsing the value after `stripUnitSuffix`. -/
def rule1ValSpec : PyVal → Except PyErr PyFloat
  | .str s =>
    match pyParseFloat (stripUnitSuffix s) with
    | some v => .ok v
    | none => .error .valueError
  | .num x => .ok x
  | .none_ => .error .valueError

/-- Modelled from the spec: the height estimator with the first rule as
the spec describes it (trailing-suffix stripping), for comparison with
`get_height`. -/
def get_height_spec (cfg : HeightCfg) (tags : Tags) : Except PyErr PyFloat :=
  if truthy (pyGet tags "height") then
    match rule1ValSpec (pyGet tags "height") with
    | .ok v => if v.isfinite then .ok v else heightTail cfg tags
    | .error .valueError => heightTail cfg tags
    | .error e => .error e
  else heightTail cfg tags

lemma PyFloat.isfinite_iff (x : PyFloat) : x.isfinite = true ↔ ∃ q, x = .val q := by
  cases x <;> simp [PyFloat.isfinite]

lemma get_height_of_falsy (cfg : HeightCfg) (tags : Tags)
    (h : truthy (pyGet tags "height") = false) :
    get_height cfg tags = heightTail cfg tags := by
  simp [get_height, h]

lemma get_height_rule1_ok (cfg : HeightCfg) (tags : Tags) (q : ℚ)
    (ht : truthy (pyGet tags "height") = true)
    (hr : rule1Val (pyGet tags "height") = .ok (.val q)) :
    get_height cfg tags = .ok (.val q) := by
  simp [get_height, ht, hr, PyFloat.isfinite]

lemma get_height_rule1_nonfinite (cfg : HeightCfg) (tags : Tags) (v : PyFloat)
    (ht : truthy (pyGet tags "height") = true)
    (hr : rule1Val (pyGet tags "height") = .ok v) (hv : v.isfinite = false) :
    get_height cfg tags = heightTail cfg tags := by
  simp [get_height, ht, hr, hv]

lemma get_height_rule1_fail (cfg : HeightCfg) (tags : Tags)
    (ht : truthy (pyGet tags "height") = true)
    (hr : rule1Val (pyGet tags "height") = .error .valueError) :
    get_height cfg tags = heightTail cfg tags := by
  simp [get_height, ht, hr]

lemma heightTail_absent (cfg : HeightCfg) (tags : Tags)
    (h : truthy (pyGet tags "building:levels") = false) :
    heightTail cfg tags = .ok (.val cfg.defaultHeight) := by
  simp [heightTail, h]

lemma heightTail_levels (cfg : HeightCfg) (tags : Tags) (q : ℚ)
    (ht : truthy (pyGet tags "building:levels") = true)
    (hf : floatOfVal (pyGet tags "building:levels") = .ok (.val q)) :
    heightTail cfg tags = .ok (.val (q * cfg.levelHeight)) := by
  simp [heightTail, ht, hf, PyFloat.mul, PyFloat.isfinite]

lemma heightTail_fail (cfg : HeightCfg) (tags : Tags)
    (ht : truthy (pyGet tags "building:levels") = true)
    (hf : floatOfVal (pyGet tags "building:levels") = .error .valueError) :
    heightTail cfg tags = .ok (.val cfg.defaultHeight) := by
  simp [heightTail, ht, hf]

lemma rule1Val_shape (h : PyVal) :
    (∃ v, rule1Val h = .ok v) ∨ rule1Val h = .error .valueError := by
  cases h with
  | str s =>
    unfold rule1Val
    cases hp : pyParseFloat (pyStrip (removeAllM s)) <;> simp [hp]
  | num x => simp [rule1Val]
  | none_ => simp [rule1Val]

lemma floatOfVal_shape (v : PyVal) (ht : truthy v = true) :
    (∃ x, floatOfVal v = .ok x) ∨ floatOfVal v = .error .valueError := by
  cases v with
  | str s =>
    unfold floatOfVal
    cases hp : pyParseFloat s <;> simp [hp]
  | num x => simp [floatOfVal]
  | none_ => simp [truthy] at ht

lemma heightTail_finite (cfg : HeightCfg) (tags : Tags) :
    ∃ q : ℚ, heightTail cfg tags = .ok (.val q) := by
  by_cases ht : truthy (pyGet tags "building:levels") = true
  · rcases floatOfVal_shape _ ht with ⟨x, hx⟩ | hx
    · by_cases hm : (x.mul (.val cfg.levelHeight)).isfinite = true
      · rcases (PyFloat.isfinite_iff _).mp hm with ⟨q, hq⟩
        exact ⟨q, by simp [heightTail, ht, hx, hq, PyFloat.isfinite]⟩
      · have hm2 : (x.mul (.val cfg.levelHeight)).isfinite = false := Bool.eq_false_iff.mpr hm
        exact ⟨cfg.defaultHeight, by simp [heightTail, ht, hx, hm2]⟩
    · exact ⟨cfg.defaultHeight, heightTail_fail cfg tags ht hx⟩
  · exact ⟨cfg.defaultHeight, heightTail_absent cfg tags (Bool.eq_false_iff.mpr ht)⟩

lemma get_height_finite (cfg : HeightCfg) (tags : Tags) :
    ∃ q : ℚ, get_height cfg tags = .ok (.val q) := by
  by_cases ht : truthy (pyGet tags "height") = true
  · rcases rule1Val_shape (pyGet tags "height") with ⟨v, hv⟩ | hv
    · by_cases hfin : v.isfinite = true
      · rcases (PyFloat.isfinite_iff _).mp hfin with ⟨q, hq⟩
        exact ⟨q, get_height_rule1_ok cfg tags q ht (hq ▸ hv)⟩
      · rw [get_height_rule1_nonfinite cfg tags v ht hv (Bool.eq_false_iff.mpr hfin)]
        exact heightTail_finite cfg tags
    · rw [get_height_rule1_fail cfg tags ht hv]
      exact heightTail_finite cfg tags
  · rw [get_height_of_falsy cfg tags (Bool.eq_false_iff.mpr ht)]
    exact heightTail_finite cfg tags

/-- `get_tile_index` from `osm-buildings-tiler.py` lines 40–44:
`ix = int(math.floor((x - minx) / TILE_SIZE))` and likewise for `iy`;
the tile size (a module constant in the source, `TILE_SIZE = 1000.0`)
is the parameter `s`. -/
def get_tile_index (x y minx miny s : ℚ) : ℤ × ℤ :=
  (⌊(x - minx) / s⌋, ⌊(y - miny) / s⌋)

/-- The module constant `TILE_SIZE` of `osm-buildings-tiler.py`. -/
def TILE_SIZE : ℚ := 1000

/-- Tile origin as reported by `main` of `osm-buildings-tiler.py`
lines 108–109: `tile_x = minx + ix * TILE_SIZE`. -/
def tileOrigin (minx miny : ℚ) (ix iy : ℤ) (s : ℚ) : ℚ × ℚ :=
  (minx + ix * s, miny + iy * s)

/-- All coordinates of a ring are finite. -/
def allFiniteRing (ring : List (PyFloat × PyFloat)) : Bool :=
  ring.all (fun q => q.1.isfinite && q.2.isfinite)

/-- A shapely polygon as the tiler sees it: the exterior ring's
coordinates (`None` when there is no exterior ring) and the GEOS
topological verdict for the polygon, an input attribute the embedding
cannot compute.  The closing repetition of the first vertex that
shapely appends to `exterior.coords` is part of the list.  The
observable `is_valid` below is not this field alone: GEOS `IsValidOp`
checks the coordinates first and reports any polygon with a non-finite
(NaN or infinite) coordinate invalid regardless of topology. -/
structure PPoly where
  topoValid : Bool
  exterior : Option (List (PyFloat × PyFloat))
deriving DecidableEq

/-- `poly.is_valid` (shapely/GEOS `IsValidOp`): a polygon whose
exterior ring contains a non-finite coordinate is invalid
(`checkInvalidCoordinates`); otherwise the topological verdict
decides. -/
def PPoly.is_valid (p : PPoly) : Bool :=
  match p.exterior with
  | some ring => allFiniteRing ring && p.topoValid
  | none => p.topoValid

/-- A raw geometry attached to an input row: `None`, a polygon, a
multi-polygon, or some other geometry type (skipped by the tiler).
`isEmpty` models shapely's `is_empty`. -/
inductive PGeom where
  | none_
  | polygon (isEmpty : Bool) (p : PPoly)
  | multiPolygon (isEmpty : Bool) (ps : List PPoly)
  | other (isEmpty : Bool)
deriving DecidableEq

/-- One input row of the tiler: a geometry and its tag dictionary. -/
structure PRecord where
  geometry : PGeom
  tags : Tags
deriving DecidableEq

/-- A building as stored in a tile by the tiler: the exterior ring
(`[[float(x), float(y)] ...]`, identity on the floats) and the
estimated height. -/
structure TileBuilding where
  footprint : List (PyFloat × PyFloat)
  height : PyFloat
deriving DecidableEq

/-- `any(math.isnan(x) or math.isnan(y) for x, y in coords)`, the
non-finite filter of `osm-buildings-tiler.py` lines 85–86: it tests
only for NaN, not for infinities. -/
def hasNanCoord (ring : List (PyFloat × PyFloat)) : Bool :=
  ring.any (fun p => p.1.isnan || p.2.isnan)

/-- One coordinate as an exact rational, defaulting to `0` for the
non-finite values (only used under an all-finite guard). -/
def coordQ : PyFloat → ℚ
  | .val q => q
  | _ => 0

/-- Signed-area accumulator of the shoelace formula over consecutive
vertex pairs. -/
def shoelace (pts : List (ℚ × ℚ)) : ℚ :=
  (List.zip pts pts.tail).foldl
    (fun a pq => a + (pq.1.1 * pq.2.2 - pq.2.1 * pq.1.2)) 0

/-- Numerator accumulator for one centroid coordinate. -/
def centroidNum (f : ℚ × ℚ → ℚ) (pts : List (ℚ × ℚ)) : ℚ :=
  (List.zip pts pts.tail).foldl
    (fun a pq => a + (f pq.1 + f pq.2) * (pq.1.1 * pq.2.2 - pq.2.1 * pq.1.2)) 0

/-- `poly.centroid` (shapely/GEOS).  On an all-finite ring this is the
polygon's area centroid computed exactly; when any coordinate is
non-finite, IEEE propagation makes the GEOS result non-finite, modelled
as NaN.  (For a degenerate all-finite ring the rational division by the
zero area yields 0 here, where GEOS falls back to a lower-dimension
centroid; no claim touches that case.) -/
def centroidPF (ring : List (PyFloat × PyFloat)) : PyFloat × PyFloat :=
  if allFiniteRing ring then
    let pts := ring.map (fun p => (coordQ p.1, coordQ p.2))
    (.val (centroidNum Prod.fst pts / (3 * shoelace pts)),
     .val (centroidNum Prod.snd pts / (3 * shoelace pts)))
  else (.nan, .nan)

/-- `int(math.floor((c - min) / s))` applied to a possibly non-finite
centroid coordinate: Python's `int()` raises `ValueError` on NaN and
`OverflowError` on an infinity; neither is caught in the tiler. -/
def floorToInt : PyFloat → Except PyErr ℤ
  | .val q => .ok ⌊q⌋
  | .nan => .error .valueError
  | _ => .error .overflowError

/-- `get_tile_index` as invoked by the tiler's main loop on a centroid
that may be non-finite (in which case the float-to-int conversion
raises). -/
def getTileIndexPF (c : PyFloat × PyFloat) (minx miny s : ℚ) :
    Except PyErr (ℤ × ℤ) :=
  match c with
  | (.val x, .val y) => .ok (get_tile_index x y minx miny s)
  | (.nan, _) => .error .valueError
  | (_, .nan) => .error .valueError
  | _ => .error .overflowError

/-- Per-polygon body of the tiler's main loop, lines 80–99: skip an
invalid polygon or a missing exterior ring, skip a ring with a NaN
coordinate, otherwise place the building in the tile of its centroid.
`none` models `continue`; `error` models an uncaught exception. -/
def processPoly (minx miny s : ℚ) (h : PyFloat) (p : PPoly) :
    Except PyErr (Option ((ℤ × ℤ) × TileBuilding)) :=
  if !p.is_valid then .ok none
  else
    match p.exterior with
    | none => .ok none
    | some ring =>
      if hasNanCoord ring then .ok none
      else
        match getTileIndexPF (centroidPF ring) minx miny s with
        | .error e => .error e
        | .ok k => .ok (some (k, ⟨ring, h⟩))

/-- Sequential processing of the polygons of one record; the first
uncaught exception aborts. -/
def processPolys (minx miny s : ℚ) (h : PyFloat) :
    List PPoly → Except PyErr (List ((ℤ × ℤ) × TileBuilding))
  | [] => .ok []
  | p :: ps =>
    match processPoly minx miny s h p with
    | .error e => .error e
    | .ok none => processPolys minx miny s h ps
    | .ok (some kb) =>
      match processPolys minx miny s h ps with
      | .error e => .error e
      | .ok rest => .ok (kb :: rest)

/-- The polygon list extracted from a geometry (lines 72–78): a
multi-polygon contributes its parts, a polygon itself, anything else is
skipped by `continue`. -/
def polysOf : PGeom → List PPoly
  | .polygon _ p => [p]
  | .multiPolygon _ ps => ps
  | _ => []

/-- `is None or is_empty` guard of line 66. -/
def skipGeom : PGeom → Bool
  | .none_ => true
  | .polygon e _ => e
  | .multiPolygon e _ => e
  | .other e => e

/-- Per-record body of the tiler's main loop, lines 64–99: skip a

missing or empty geometry, estimate the height from the tags, then
process each constituent polygon. -/
def processRecord (cfg : HeightCfg) (minx miny s : ℚ) (r : PRecord) :
    Except PyErr (List ((ℤ × ℤ) × TileBuilding)) :=
  if skipGeom r.geometry then .ok []
  else
    match get_height cfg r.tags with
    | .error e => .error e
    | .ok h => processPolys minx miny s h (polysOf r.geometry)

/-- The in-memory tile grouping of the tiler. -/
abbrev TileMapT := List ((ℤ × ℤ) × List TileBuilding)

/-- `tiles[tile_key].append(building)` with creation of the key on
first use (lines 93–99), preserving key insertion order. -/
def addToTile (tiles : TileMapT) (k : ℤ × ℤ) (b : TileBuilding) : TileMapT :=
  if (tiles : List _).any (fun t => t.1 = k) then
    (tiles : List _).map (fun t => if t.1 = k then (t.1, t.2 ++ [b]) else t)
  else (tiles : List _) ++ [(k, [b])]

/-- Fold a record's placements into the grouping. -/
def addAll (tiles : TileMapT) : List ((ℤ × ℤ) × TileBuilding) → TileMapT
  | [] => tiles
  | (k, b) :: rest => addAll (addToTile tiles k b) rest

/-- The grouping loop of the tiler over all input records. -/
def buildTilesFrom (cfg : HeightCfg) (minx miny s : ℚ) (tiles : TileMapT) :
    List PRecord → Except PyErr TileMapT
  | [] => .ok tiles
  | r :: rs =>
    match processRecord cfg minx miny s r with
    | .error e => .error e
    | .ok placed => buildTilesFrom cfg minx miny s (addAll tiles placed) rs

/-- The tiler's grouping phase starting from the empty grouping. -/
def buildTiles (cfg : HeightCfg) (minx miny s : ℚ) (rs : List PRecord) :
    Except PyErr TileMapT :=
  buildTilesFrom cfg minx miny s [] rs

/-- A building record as read by `pack-buildings.py`: the exterior
ring and the height, all finite numbers (the input is a GeoJSON file,
which cannot carry non-finite values), carried exactly as rationals. -/
structure Building where
  footprint : List (ℚ × ℚ)
  height : ℚ
deriving DecidableEq

/-- One entry of `buildings.index.json`: byte offset and byte length of
a tile's compressed payload inside `buildings.pack`. -/
structure PackIndexEntry where
  offset : ℕ
  length : ℕ
deriving DecidableEq

/-- The tile grouping handed to the pack encoder: a Python dict in
insertion order from `(ix, iy)` tile keys to building lists. -/
abbrev TileMap := List ((ℤ × ℤ) × List Building)

/-- `f"{ix},{iy}"`, the string key of an index entry. -/
def keyStr (k : ℤ × ℤ) : String :=
  toString k.1 ++ "," ++ toString k.2

/-- JSON rendering of a number.  An integral float prints as Python
prints it (`12.0`); a non-integral rational is rendered exactly, where
Python would print the float's shortest decimal form — no claim
depends on the digits, only on the encoding being a fixed function of
the value. -/
def qJson (q : ℚ) : String :=
  if q.den = 1 then toString q.num ++ ".0"
  else toString q.num ++ "/" ++ toString q.den

/-- JSON rendering of one footprint vertex. -/
def pointJson (p : ℚ × ℚ) : String :=
  "[" ++ qJson p.1 ++ "," ++ qJson p.2 ++ "]"

/-- Compact JSON of one building dict, field order `footprint` then
`height` as in the source (`json.dumps` keeps dict insertion order). -/
def buildingJson (b : Building) : String :=
  "\x7b\"footprint\":[" ++ String.intercalate "," (b.footprint.map pointJson)
    ++ "],\"height\":" ++ qJson b.height ++ "\x7d"

/-- `json.dumps(buildings, separators=(",", ":"))`: the canonical
compact encoding of a tile's building list. -/
def canonicalEncoding (bs : List Building) : String :=
  "[" ++ String.intercalate "," (bs.map buildingJson) ++ "]"

/-- `.encode("utf-8")` of the canonical encoding, as a byte list (the
encoding is ASCII, one byte per character). -/
def encodeTile (bs : List Building) : List ℕ :=
  (canonicalEncoding bs).data.map Char.toNat

/-- Python's ordering on `(ix, iy)` tuples: lexicographic. -/
def keyLe (a b : ℤ × ℤ) : Bool :=
  decide (a.1 < b.1 ∨ (a.1 = b.1 ∧ a.2 ≤ b.2))

/-- Strict lexicographic order on tile keys. -/
def keyLt (a b : ℤ × ℤ) : Prop :=
  a.1 < b.1 ∨ (a.1 = b.1 ∧ a.2 < b.2)

/-- Insertion step of sorting the dict items by tile key. -/
def insertTile (x : (ℤ × ℤ) × List Building) : TileMap → TileMap
  | [] => [x]
  | y :: ys => if keyLe x.1 y.1 then x :: y :: ys else y :: insertTile x ys

/-- `sorted(tiles.items())`: the dict items in ascending tile-key
order.  Python compares the `(key, value)` tuples, but with the dict's
unique keys the comparison never reaches the values, so this sorts by
key. -/
def sortTiles : TileMap → TileMap
  | [] => []
  | x :: xs => insertTile x (sortTiles xs)

/-- The writing loop of `pack_buildings` (lines 67–82): for each tile
in sorted order, compress the canonical encoding, append it to the
blob, record `{offset, length}` under the `"ix,iy"` key, and advance
the running offset.  The compressor (`zlib.compress`) is an external
library, taken as a parameter. -/
def packLoop (compress : List ℕ → List ℕ) :
    TileMap → List ℕ → ℕ → List (String × PackIndexEntry) →
    List ℕ × ℕ × List (String × PackIndexEntry)
  | [], blob, offset, index => (blob, offset, index)
  | t :: ts, blob, offset, index =>
    packLoop compress ts (blob ++ compress (encodeTile t.2))
      (offset + (compress (encodeTile t.2)).length)
      (index ++ [(keyStr t.1, ⟨offset, (compress (encodeTile t.2)).length⟩)])

/-- `pack_buildings` of `pack-buildings.py`, restricted to its encoding
phase: from the tile grouping to the pack blob and the index. -/
def pack_buildings (compress : List ℕ → List ℕ) (tiles : TileMap) :
    List ℕ × List (String × PackIndexEntry) :=
  ((packLoop compress (sortTiles tiles) [] 0 []).1,
   (packLoop compress (sortTiles tiles) [] 0 []).2.2)

/-- The compressed payload of one tile. -/
def payload (compress : List ℕ → List ℕ) (t : (ℤ × ℤ) × List Building) :
    List ℕ :=
  compress (encodeTile t.2)

/-- The index entries the loop records for a tile list, starting at a
given running offset. -/
def entriesFrom (compress : List ℕ → List ℕ) (offset : ℕ) :
    TileMap → List (String × PackIndexEntry)
  | [] => []
  | t :: ts =>
    (keyStr t.1, ⟨offset, (payload compress t).length⟩) ::
      entriesFrom compress (offset + (payload compress t).length) ts

lemma packLoop_eq (compress : List ℕ → List ℕ) (ts : TileMap) :
    ∀ (blob : List ℕ) (offset : ℕ) (index : List (String × PackIndexEntry)),
    packLoop compress ts blob offset index =
      (blob ++ (ts.map (payload compress)).flatten,
       offset + ((ts.map (payload compress)).map List.length).sum,
       index ++ entriesFrom compress offset ts) := by
  induction ts with
  | nil => intro blob offset index; simp [packLoop, entriesFrom]
  | cons t ts ih =>
    intro blob offset index
    simp only [packLoop]
    rw [ih]
    simp [entriesFrom, payload, List.append_assoc, Nat.add_assoc]

lemma entriesFrom_map_fst (compress : List ℕ → List ℕ) (ts : TileMap) :
    ∀ offset, (entriesFrom compress offset ts).map Prod.fst =
      ts.map (fun t => keyStr t.1) := by
  induction ts with
  | nil => intro offset; simp [entriesFrom]
  | cons t ts ih => intro offset; simp [entriesFrom, ih]

lemma entriesFrom_sum_length (compress : List ℕ → List ℕ) (ts : TileMap) :
    ∀ offset, ((entriesFrom compress offset ts).map (fun e => e.2.length)).sum =
      ((ts.map (payload compress)).map List.length).sum := by
  induction ts with
  | nil => intro offset; simp [entriesFrom]
  | cons t ts ih => intro offset; simp [entriesFrom, ih]

lemma mem_entriesFrom_offset_ge (compress : List ℕ → List ℕ) (ts : TileMap) :
    ∀ offset e, e ∈ entriesFrom compress offset ts → offset ≤ e.2.offset := by
  induction ts with
  | nil => intro offset e h; simp [entriesFrom] at h
  | cons t ts ih =>
    intro offset e h
    rcases List.mem_cons.mp h with rfl | h
    · exact le_refl _
    · exact le_trans (Nat.le_add_right _ _) (ih _ e h)

lemma mem_entriesFrom_length (compress : List ℕ → List ℕ) (ts : TileMap) :
    ∀ offset e, e ∈ entriesFrom compress offset ts →
      ∃ t ∈ ts, e.2.length = (payload compress t).length := by
  induction ts with
  | nil => intro offset e h; simp [entriesFrom] at h
  | cons t ts ih =>
    intro offset e h
    rcases List.mem_cons.mp h with rfl | h
    · exact ⟨t, List.mem_cons_self t ts, rfl⟩
    · obtain ⟨u, hu, hl⟩ := ih _ e h
      exact ⟨u, List.mem_cons_of_mem t hu, hl⟩

lemma entriesFrom_pairwise (compress : List ℕ → List ℕ) (ts : TileMap) :
    ∀ offset, (entriesFrom compress offset ts).Pairwise
      (fun a b => a.2.offset + a.2.length ≤ b.2.offset) := by
  induction ts with
  | nil => intro offset; simp [entriesFrom]
  | cons t ts ih =>
    intro offset
    refine List.pairwise_cons.mpr ⟨?_, ih _⟩
    intro e he
    exact mem_entriesFrom_offset_ge compress ts _ e he

lemma entriesFrom_slice (compress : List ℕ → List ℕ) (ts : TileMap) :
    ∀ (pre : List ℕ) (s : String) (e : PackIndexEntry),
    (s, e) ∈ entriesFrom compress pre.length ts →
    ∃ t, t ∈ ts ∧ s = keyStr t.1 ∧
      ((pre ++ (ts.map (payload compress)).flatten).drop e.offset).take e.length =
        payload compress t := by
  induction ts with
  | nil => intro pre s e h; simp [entriesFrom] at h
  | cons t ts ih =>
    intro pre s e h
    rcases List.mem_cons.mp h with hh | hh
    · obtain ⟨hs, he⟩ := Prod.mk.injEq .. ▸ hh
      refine ⟨t, List.mem_cons_self t ts, hs, ?_⟩
      subst he
      rw [List.map_cons, List.flatten_cons, ← List.append_assoc]
      show (((pre ++ payload compress t) ++ _).drop pre.length).take
        (payload compress t).length = _
      rw [List.append_assoc, List.drop_left, List.take_left]
    · have hlen : pre.length + (payload compress t).length =
        (pre ++ payload compress t).length := by simp
      rw [hlen] at hh
      obtain ⟨u, hu, hs, hslice⟩ := ih (pre ++ payload compress t) s e hh
      refine ⟨u, List.mem_cons_of_mem t hu, hs, ?_⟩
      rw [List.map_cons, List.flatten_cons, ← List.append_assoc]
      exact hslice

lemma insertTile_perm (x : (ℤ × ℤ) × List Building) (l : TileMap) :
    (insertTile x l).Perm (x :: l) := by
  induction l with
  | nil => simp [insertTile]
  | cons y ys ih =>
    unfold insertTile
    by_cases hk : keyLe x.1 y.1 = true
    · rw [if_pos hk]
    · rw [if_neg hk]
      exact (ih.cons y).trans (List.Perm.swap x y ys)

lemma sortTiles_perm (l : TileMap) : (sortTiles l).Perm l := by
  induction l with
  | nil => simp [sortTiles]
  | cons x xs ih => exact (insertTile_perm x (sortTiles xs)).trans (ih.cons x)

lemma mem_insertTile (z x : (ℤ × ℤ) × List Building) (l : TileMap) :
    z ∈ insertTile x l ↔ z = x ∨ z ∈ l := by
  rw [(insertTile_perm x l).mem_iff, List.mem_cons]

lemma keyLe_total (a b : ℤ × ℤ) : keyLe a b = true ∨ keyLe b a = true := by
  simp only [keyLe, decide_eq_true_eq]
  omega

lemma keyLe_trans (a b c : ℤ × ℤ) (h1 : keyLe a b = true) (h2 : keyLe b c = true) :
    keyLe a c = true := by
  simp only [keyLe, decide_eq_true_eq] at h1 h2 ⊢
  omega

lemma insertTile_sorted (x : (ℤ × ℤ) × List Building) (l : TileMap)
    (h : l.Pairwise (fun a b => keyLe a.1 b.1 = true)) :
    (insertTile x l).Pairwise (fun a b => keyLe a.1 b.1 = true) := by
  induction l with
  | nil => simp [insertTile]
  | cons y ys ih =>
    obtain ⟨hy, hys⟩ := List.pairwise_cons.mp h
    unfold insertTile
    by_cases hk : keyLe x.1 y.1 = true
    · rw [if_pos hk]
      refine List.pairwise_cons.mpr ⟨?_, h⟩
      intro z hz
      rcases List.mem_cons.mp hz with rfl | hz
      · exact hk
      · exact keyLe_trans _ _ _ hk (hy z hz)
    · rw [if_neg hk]
      refine List.pairwise_cons.mpr ⟨?_, ih hys⟩
      intro z hz
      rcases (mem_insertTile z x ys).mp hz with rfl | hz
      · rcases keyLe_total z.1 y.1 with h1 | h1
        · exact absurd h1 hk
        · exact h1
      · exact hy z hz

lemma sortTiles_sorted (l : TileMap) :
    (sortTiles l).Pairwise (fun a b => keyLe a.1 b.1 = true) := by
  induction l with
  | nil => simp [sortTiles]
  | cons x xs ih => exact insertTile_sorted x (sortTiles xs) ih

lemma keyLe_ne_lt (a b : ℤ × ℤ) (h1 : keyLe a b = true) (h2 : a ≠ b) : keyLt a b := by
  obtain ⟨a1, a2⟩ := a
  obtain ⟨b1, b2⟩ := b
  simp only [keyLe, decide_eq_true_eq] at h1
  simp only [ne_eq, Prod.mk.injEq, not_and] at h2
  simp only [keyLt]
  rcases h1 with h | ⟨rfl, h⟩
  · exact Or.inl h
  · rcases lt_or_eq_of_le h with h' | rfl
    · exact Or.inr ⟨rfl, h'⟩
    · exact absurd rfl (h2 rfl)

lemma sortTiles_strict (l : TileMap) (hnd : (l.map Prod.fst).Nodup) :
    (sortTiles l).Pairwise (fun a b => keyLt a.1 b.1) := by
  have hperm := sortTiles_perm l
  have hnd2 : ((sortTiles l).map Prod.fst).Nodup :=
    hnd.perm ((hperm.map Prod.fst).symm)
  have hp2 : (sortTiles l).Pairwise (fun a b => a.1 ≠ b.1) :=
    List.pairwise_map.mp hnd2
  exact ((sortTiles_sorted l).and hp2).imp (fun h => keyLe_ne_lt _ _ h.1 h.2)

lemma keyLt_asymm (a b : ℤ × ℤ) (h1 : keyLt a b) (h2 : keyLt b a) : False := by
  obtain ⟨a1, a2⟩ := a
  obtain ⟨b1, b2⟩ := b
  simp only [keyLt] at h1 h2
  omega

lemma eq_of_perm_strictSorted (l₁ : TileMap) :
    ∀ (l₂ : TileMap), l₁.Perm l₂ →
    l₁.Pairwise (fun a b => keyLt a.1 b.1) →
    l₂.Pairwise (fun a b => keyLt a.1 b.1) → l₁ = l₂ := by
  induction l₁ with
  | nil =>
    intro l₂ hp _ _
    exact (hp.symm.eq_nil).symm
  | cons a t ih =>
    intro l₂ hp hs1 hs2
    cases l₂ with
    | nil =>
      have := hp.eq_nil
      simp at this
    | cons b t₂ =>
      by_cases hab : a = b
      · subst hab
        rw [ih t₂ hp.cons_inv (List.pairwise_cons.mp hs1).2
          (List.pairwise_cons.mp hs2).2]
      · have ha2 : a ∈ t₂ := by
          rcases List.mem_cons.mp (hp.mem_iff.mp (List.mem_cons_self a t)) with h | h
          · exact absurd h hab
          · exact h
        have hb2 : b ∈ t := by
          rcases List.mem_cons.mp (hp.mem_iff.mpr (List.mem_cons_self b t₂)) with h | h
          · exact absurd h.symm hab
          · exact h
        have h1 : keyLt a.1 b.1 := (List.pairwise_cons.mp hs1).1 b hb2
        have h2 : keyLt b.1 a.1 := (List.pairwise_cons.mp hs2).1 a ha2
        exact (keyLt_asymm _ _ h1 h2).elim

lemma sortTiles_eq_of_perm (tiles tiles' : TileMap)
    (hnd : (tiles.map Prod.fst).Nodup) (hperm : tiles.Perm tiles') :
    sortTiles tiles = sortTiles tiles' := by
  refine eq_of_perm_strictSorted _ _
    ((sortTiles_perm tiles).trans (hperm.trans (sortTiles_perm tiles').symm))
    (sortTiles_strict tiles hnd)
    (sortTiles_strict tiles' (hnd.perm (hperm.map Prod.fst)))

lemma pack_buildings_blob (compress : List ℕ → List ℕ) (tiles : TileMap) :
    (pack_buildings compress tiles).1 =
      ((sortTiles tiles).map (payload compress)).flatten := by
  simp [pack_buildings, packLoop_eq]

lemma pack_buildings_index (compress : List ℕ → List ℕ) (tiles : TileMap) :
    (pack_buildings compress tiles).2 =
      entriesFrom compress 0 (sortTiles tiles) := by
  simp [pack_buildings, packLoop_eq]

/-- C1: for every index entry `{offset, length}` produced by the Pack
Encoder, decompressing `blob[offset:offset+length]` of the pack blob
yields exactly that tile's canonical encoding (the compact JSON
serialization of its building list) — a lossless round trip, for every
non-empty tile in the grouping. -/
theorem pack_roundtrip_C1 (compress decompress : List ℕ → List ℕ)
    (tiles : TileMap) (hrt : ∀ b, decompress (compress b) = b) :
    ∀ s e, (s, e) ∈ (pack_buildings compress tiles).2 →
    ∃ k bs, (k, bs) ∈ tiles ∧ s = keyStr k ∧
      decompress (((pack_buildings compress tiles).1.drop e.offset).take e.length) =
        encodeTile bs := by
  intro s e hmem
  rw [pack_buildings_index] at hmem
  have h0 : (0 : ℕ) = ([] : List ℕ).length := rfl
  rw [h0] at hmem
  obtain ⟨t, ht, hs, hslice⟩ :=
    entriesFrom_slice compress (sortTiles tiles) [] s e hmem
  simp only [List.nil_append] at hslice
  refine ⟨t.1, t.2, (sortTiles_perm tiles).mem_iff.mp ht, hs, ?_⟩
  rw [pack_buildings_blob, hslice, payload, hrt]

/-- C2: for every tile grouping given to the Pack Encoder, the
resulting index satisfies: the sum of all entries' length fields equals
the total size of the pack blob; the entries are emitted sorted by tile
key with strictly ascending offsets; and no two entries' byte ranges
`[offset, offset+length)` overlap.  (The compressor is assumed to emit
at least one byte, which `zlib.compress` always does; the grouping is a
dict, so its tile keys are distinct.) -/
theorem pack_index_C2 (compress : List ℕ → List ℕ) (tiles : TileMap)
    (hc : ∀ b, compress b ≠ []) (hnd : (tiles.map Prod.fst).Nodup) :
    ((pack_buildings compress tiles).2.map (fun e => e.2.length)).sum =
        (pack_buildings compress tiles).1.length
    ∧ (pack_buildings compress tiles).2.map Prod.fst =
        (sortTiles tiles).map (fun t => keyStr t.1)
    ∧ (sortTiles tiles).Pairwise (fun a b => keyLt a.1 b.1)
    ∧ (pack_buildings compress tiles).2.Pairwise
        (fun a b => a.2.offset < b.2.offset)
    ∧ (pack_buildings compress tiles).2.Pairwise
        (fun a b => a.2.offset + a.2.length ≤ b.2.offset ∨
          b.2.offset + b.2.length ≤ a.2.offset) := by
  rw [pack_buildings_blob, pack_buildings_index]
  refine ⟨?_, entriesFrom_map_fst compress (sortTiles tiles) 0,
    sortTiles_strict tiles hnd, ?_, ?_⟩
  · rw [entriesFrom_sum_length, List.length_flatten]
  · refine (entriesFrom_pairwise compress (sortTiles tiles) 0).imp_of_mem ?_
    intro a b ha _ hle
    obtain ⟨t, _, hl⟩ := mem_entriesFrom_length compress (sortTiles tiles) 0 a ha
    have hpos : 0 < a.2.length := by
      rw [hl]
      exact List.length_pos.mpr (hc (encodeTile t.2))
    omega
  · exact (entriesFrom_pairwise compress (sortTiles tiles) 0).imp Or.inl

/-- C3: the Pack Encoder emits tiles in ascending lexicographic
`(ix, iy)` order: the pack blob is the concatenation of the compressed
canonical encodings of the grouping's tiles taken in ascending tile-key
order, and two groupings holding the same tiles in any insertion order
yield the identical blob and index. -/
theorem pack_deterministic_C3 (compress : List ℕ → List ℕ)
    (tiles tiles' : TileMap) (hnd : (tiles.map Prod.fst).Nodup)
    (hperm : tiles.Perm tiles') :
    (pack_buildings compress tiles).1 =
        ((sortTiles tiles).map (fun t => compress (encodeTile t.2))).flatten
    ∧ (sortTiles tiles).Pairwise (fun a b => keyLt a.1 b.1)
    ∧ (sortTiles tiles).Perm tiles
    ∧ pack_buildings compress tiles' = pack_buildings compress tiles := by
  refine ⟨pack_buildings_blob compress tiles, sortTiles_strict tiles hnd,
    sortTiles_perm tiles, ?_⟩
  unfold pack_buildings
  rw [sortTiles_eq_of_perm tiles tiles' hnd hperm]

lemma floor_tile_iff (x minx s : ℚ) (i : ℤ) (hs : 0 < s) :
    ⌊(x - minx) / s⌋ = i ↔ minx + i * s ≤ x ∧ x < minx + (i + 1) * s := by
  rw [Int.floor_eq_iff, le_div_iff₀ hs, div_lt_iff₀ hs]
  constructor
  · rintro ⟨h1, h2⟩
    exact ⟨by linarith, by linarith⟩
  · rintro ⟨h1, h2⟩
    exact ⟨by linarith, by linarith⟩

/-- C4: the Tile Grid Indexer returns exactly
`(floor ((x - minx)/s), floor ((y - miny)/s))`; membership on each axis
is the half-open interval `[origin, origin + s)`, so a centroid exactly
on a boundary gets the larger index on that axis; and with `s = 1000`
and min bound `(0, 0)`, centroid `(1500, 2500)` maps to tile key
`(1, 2)` with reported tile origin `(1000, 2000)`. -/
theorem tile_index_C4 (x y minx miny s : ℚ) (i j : ℤ) (hs : 0 < s) :
    get_tile_index x y minx miny s = (⌊(x - minx) / s⌋, ⌊(y - miny) / s⌋)
    ∧ ((get_tile_index x y minx miny s).1 = i ↔
        minx + i * s ≤ x ∧ x < minx + (i + 1) * s)
    ∧ ((get_tile_index x y minx miny s).2 = j ↔
        miny + j * s ≤ y ∧ y < miny + (j + 1) * s)
    ∧ (x = minx + i * s → (get_tile_index x y minx miny s).1 = i)
    ∧ get_tile_index 1500 2500 0 0 1000 = (1, 2)
    ∧ tileOrigin 0 0 1 2 1000 = (1000, 2000) := by
  refine ⟨rfl, floor_tile_iff x minx s i hs, floor_tile_iff y miny s j hs,
    ?_, ?_, ?_⟩
  · intro hx
    refine (floor_tile_iff x minx s i hs).mpr ⟨le_of_eq hx.symm, ?_⟩
    rw [hx]
    nlinarith
  · have f1 : ⌊(1500 : ℚ) / 1000⌋ = 1 := by
      rw [(by norm_num : ((1500 : ℚ) / 1000) = 3 / 2), Int.floor_eq_iff]; norm_num
    have f2 : ⌊(2500 : ℚ) / 1000⌋ = 2 := by
      rw [(by norm_num : ((2500 : ℚ) / 1000) = 5 / 2), Int.floor_eq_iff]; norm_num
    simp [get_tile_index, f1, f2]
  · simp [tileOrigin]
    norm_num

/-- All buildings stored in a grouping have all-finite footprints. -/
def tilesClean (tiles : TileMapT) : Prop :=
  ∀ k bs, (k, bs) ∈ tiles → ∀ b ∈ bs, allFiniteRing b.footprint = true

lemma processPoly_finite (minx miny s : ℚ) (h : PyFloat) (p : PPoly)
    (k : ℤ × ℤ) (b : TileBuilding)
    (hp : processPoly minx miny s h p = .ok (some (k, b))) :
    allFiniteRing b.footprint = true := by
  unfold processPoly at hp
  cases hv : p.is_valid with
  | false => rw [hv] at hp; simp at hp
  | true =>
    rw [hv] at hp
    simp only [Bool.not_true, Bool.false_eq_true, if_false] at hp
    cases hext : p.exterior with
    | none => rw [hext] at hp; simp at hp
    | some ring =>
      rw [hext] at hp
      dsimp only at hp
      have hfin : allFiniteRing ring = true := by
        unfold PPoly.is_valid at hv
        rw [hext] at hv
        dsimp only at hv
        exact ((Bool.and_eq_true _ _).mp hv).1
      cases hn : hasNanCoord ring with
      | true => rw [hn] at hp; simp at hp
      | false =>
        rw [hn] at hp
        simp only [Bool.false_eq_true, if_false] at hp
        cases hti : getTileIndexPF (centroidPF ring) minx miny s with
        | error e => rw [hti] at hp; simp at hp
        | ok kk =>
          rw [hti] at hp
          simp only [Except.ok.injEq, Option.some.injEq, Prod.mk.injEq] at hp
          rw [← hp.2]
          exact hfin

lemma processPolys_finite (minx miny s : ℚ) (h : PyFloat) :
    ∀ (ps : List PPoly) (out : List ((ℤ × ℤ) × TileBuilding)),
    processPolys minx miny s h ps = .ok out →
    ∀ kb ∈ out, allFiniteRing kb.2.footprint = true := by
  intro ps
  induction ps with
  | nil =>
    intro out hout kb hkb
    simp only [processPolys, Except.ok.injEq] at hout
    rw [← hout] at hkb
    simp at hkb
  | cons p ps ih =>
    intro out hout kb hkb
    unfold processPolys at hout
    cases hp : processPoly minx miny s h p with
    | error e => rw [hp] at hout; simp at hout
    | ok o =>
      rw [hp] at hout
      cases o with
      | none => exact ih out hout kb hkb
      | some kb0 =>
        cases hrest : processPolys minx miny s h ps with
        | error e => rw [hrest] at hout; simp at hout
        | ok rest =>
          rw [hrest] at hout
          simp only [Except.ok.injEq] at hout
          rw [← hout] at hkb
          rcases List.mem_cons.mp hkb with rfl | hkb2
          · exact processPoly_finite minx miny s h p kb.1 kb.2 hp
          · exact ih rest hrest kb hkb2

lemma processRecord_finite (cfg : HeightCfg) (minx miny s : ℚ) (r : PRecord)
    (out : List ((ℤ × ℤ) × TileBuilding))
    (hout : processRecord cfg minx miny s r = .ok out) :
    ∀ kb ∈ out, allFiniteRing kb.2.footprint = true := by
  unfold processRecord at hout
  cases hg : skipGeom r.geometry with
  | true =>
    rw [hg] at hout
    simp only [if_true, Except.ok.injEq] at hout
    rw [← hout]
    simp
  | false =>
    rw [hg] at hout
    simp only [Bool.false_eq_true, if_false] at hout
    cases hh : get_height cfg r.tags with
    | error e => rw [hh] at hout; simp at hout
    | ok h =>
      rw [hh] at hout
      exact processPolys_finite minx miny s h (polysOf r.geometry) out hout

lemma addToTile_clean (tiles : TileMapT) (k : ℤ × ℤ) (b : TileBuilding)
    (hcl : tilesClean tiles) (hb : allFiniteRing b.footprint = true) :
    tilesClean (addToTile tiles k b) := by
  intro k' bs' hmem b' hb'
  unfold addToTile at hmem
  by_cases hk : ((tiles : List _).any (fun t => t.1 = k)) = true
  · rw [if_pos hk] at hmem
    obtain ⟨t0, ht0, heq⟩ := List.mem_map.mp hmem
    by_cases ht0k : t0.1 = k
    · rw [if_pos ht0k] at heq
      obtain ⟨hk', hbs⟩ := Prod.mk.injEq .. ▸ heq
      rw [← hbs] at hb'
      rcases List.mem_append.mp hb' with h2 | h2
      · exact hcl t0.1 t0.2 ht0 b' h2
      · rw [List.mem_singleton.mp h2]
        exact hb
    · rw [if_neg ht0k] at heq
      exact hcl k' bs' (heq ▸ ht0) b' hb'
  · rw [if_neg hk] at hmem
    rcases List.mem_append.mp hmem with h2 | h2
    · exact hcl k' bs' h2 b' hb'
    · obtain ⟨hk', hbs⟩ := Prod.mk.injEq .. ▸ List.mem_singleton.mp h2
      rw [hbs] at hb'
      rw [List.mem_singleton.mp hb']
      exact hb

lemma addAll_clean :
    ∀ (placed : List ((ℤ × ℤ) × TileBuilding)) (tiles : TileMapT),
    tilesClean tiles →
    (∀ kb ∈ placed, allFiniteRing kb.2.footprint = true) →
    tilesClean (addAll tiles placed) := by
  intro placed
  induction placed with
  | nil => intro tiles hcl _; exact hcl
  | cons kb rest ih =>
    intro tiles hcl hplaced
    obtain ⟨k, b⟩ := kb
    exact ih (addToTile tiles k b)
      (addToTile_clean tiles k b hcl (hplaced (k, b) (List.mem_cons_self _ _)))
      (fun kb2 h2 => hplaced kb2 (List.mem_cons_of_mem _ h2))

lemma buildTilesFrom_clean (cfg : HeightCfg) (minx miny s : ℚ) :
    ∀ (rs : List PRecord) (acc tiles : TileMapT),
    tilesClean acc → buildTilesFrom cfg minx miny s acc rs = .ok tiles →
    tilesClean tiles := by
  intro rs
  induction rs with
  | nil =>
    intro acc tiles hcl h
    simp only [buildTilesFrom, Except.ok.injEq] at h
    rw [← h]
    exact hcl
  | cons r rs ih =>
    intro acc tiles hcl h
    unfold buildTilesFrom at h
    cases hr : processRecord cfg minx miny s r with
    | error e => rw [hr] at h; simp at h
    | ok placed =>
      rw [hr] at h
      exact ih (addAll acc placed) tiles
        (addAll_clean placed acc hcl
          (processRecord_finite cfg minx miny s r placed hr)) h

lemma nonfinite_not_valid (p : PPoly) (ring : List (PyFloat × PyFloat))
    (hext : p.exterior = some ring) (haf : allFiniteRing ring = false) :
    p.is_valid = false := by
  unfold PPoly.is_valid
  rw [hext]
  dsimp only
  rw [haf]
  rfl

lemma processPoly_nonfinite_discard (minx miny s : ℚ) (h : PyFloat) (p : PPoly)
    (ring : List (PyFloat × PyFloat)) (hext : p.exterior = some ring)
    (hnf : ∃ c ∈ ring, c.1.isfinite = false ∨ c.2.isfinite = false) :
    processPoly minx miny s h p = .ok none := by
  have haf : allFiniteRing ring = false := by
    obtain ⟨c, hc, hor⟩ := hnf
    apply Bool.eq_false_iff.mpr
    intro hall
    unfold allFiniteRing at hall
    obtain ⟨h1, h2⟩ := (Bool.and_eq_true _ _).mp (List.all_eq_true.mp hall c hc)
    rcases hor with hx | hy
    · rw [hx] at h1
      exact Bool.false_ne_true h1
    · rw [hy] at h2
      exact Bool.false_ne_true h2
  simp [processPoly, nonfinite_not_valid p ring hext haf]

lemma processPolys_all_discard (minx miny s : ℚ) (h : PyFloat) :
    ∀ ps : List PPoly, (∀ p ∈ ps, processPoly minx miny s h p = .ok none) →
    processPolys minx miny s h ps = .ok [] := by
  intro ps
  induction ps with
  | nil => intro _; rfl
  | cons p ps ih =>
    intro hall
    unfold processPolys
    rw [hall p (List.mem_cons_self _ _)]
    exact ih (fun q hq => hall q (List.mem_cons_of_mem _ hq))

lemma processRecord_discard (cfg : HeightCfg) (minx miny s : ℚ) (r : PRecord)
    (hall : ∀ (h : PyFloat), ∀ p ∈ polysOf r.geometry,
      processPoly minx miny s h p = .ok none) :
    processRecord cfg minx miny s r = .ok [] := by
  unfold processRecord
  cases hg : skipGeom r.geometry with
  | true => simp
  | false =>
    simp only [Bool.false_eq_true, if_false]
    obtain ⟨q, hq⟩ := get_height_finite cfg r.tags
    rw [hq]
    exact processPolys_all_discard minx miny s (.val q) (polysOf r.geometry)
      (hall (.val q))

lemma buildTilesFrom_skip (cfg : HeightCfg) (minx miny s : ℚ) (r : PRecord)
    (rs : List PRecord) (acc : TileMapT)
    (hr : processRecord cfg minx miny s r = .ok []) :
    buildTilesFrom cfg minx miny s acc (r :: rs) =
      buildTilesFrom cfg minx miny s acc rs := by
  show (match processRecord cfg minx miny s r with
    | .error e => .error e
    | .ok placed => buildTilesFrom cfg minx miny s (addAll acc placed) rs) =
      buildTilesFrom cfg minx miny s acc rs
  rw [hr]
  rfl

/-- C5: every input ring that contains a non-finite coordinate (NaN or
a positive/negative infinity in either component) is discarded
non-fatally by the tiler — GEOS reports the polygon invalid, so the
guard of `osm-buildings-tiler.py` line 81 skips it, and the NaN filter
of lines 85–86 additionally skips NaN rings — it never appears in any
output tile (every stored footprint is all-finite), and the run
continues for the remaining records. -/
theorem nonfinite_ring_excluded_C5 (cfg : HeightCfg) (minx miny s : ℚ) :
    (∀ (h : PyFloat) (p : PPoly) (ring : List (PyFloat × PyFloat)),
      p.exterior = some ring →
      (∃ c ∈ ring, c.1.isfinite = false ∨ c.2.isfinite = false) →
      processPoly minx miny s h p = .ok none)
    ∧ (∀ (rs : List PRecord) (tiles : TileMapT),
        buildTiles cfg minx miny s rs = .ok tiles →
        ∀ k bs, (k, bs) ∈ tiles → ∀ b ∈ bs, allFiniteRing b.footprint = true)
    ∧ (∀ (r : PRecord) (rs : List PRecord) (acc : TileMapT),
        (∀ p ∈ polysOf r.geometry, ∃ ring, p.exterior = some ring ∧
          ∃ c ∈ ring, c.1.isfinite = false ∨ c.2.isfinite = false) →
        buildTilesFrom cfg minx miny s acc (r :: rs) =
          buildTilesFrom cfg minx miny s acc rs) := by
  refine ⟨?_, ?_, ?_⟩
  · intro h p ring hext hnf
    exact processPoly_nonfinite_discard minx miny s h p ring hext hnf
  · intro rs tiles h k bs hmem b hb
    unfold buildTiles at h
    exact buildTilesFrom_clean cfg minx miny s rs [] tiles
      (fun k' bs' h' => by simp at h') h k bs hmem b hb
  · intro r rs acc hall
    refine buildTilesFrom_skip cfg minx miny s r rs acc
      (processRecord_discard cfg minx miny s r ?_)
    intro h p hp
    obtain ⟨ring, hext, hnf⟩ := hall p hp
    exact processPoly_nonfinite_discard minx miny s h p ring hext hnf

/-- A ring with an infinite (not NaN) x-coordinate; shapely appends the
closing vertex. -/
def infRing : List (PyFloat × PyFloat) :=
  [(.val 0, .val 0), (.inf, .val 0), (.val 0, .val 1), (.val 0, .val 0)]

/-- A polygon whose exterior ring is `infRing`.  Whatever topological
verdict is stored, GEOS reports the polygon invalid because of the
infinite coordinate, so `is_valid` computes to `false`. -/
def infPoly : PPoly := ⟨true, some infRing⟩

/-- A ring with a NaN y-coordinate. -/
def nanRing : List (PyFloat × PyFloat) :=
  [(.val 0, .val 0), (.val 1, .nan), (.val 0, .val 1), (.val 0, .val 0)]

/-- A polygon whose exterior ring is `nanRing`. -/
def nanPoly : PPoly := ⟨true, some nanRing⟩

theorem nonfinite_ring_excluded_C5_witness :
    processPoly 0 0 1000 (.val 5) infPoly = .ok none
    ∧ processPoly 0 0 1000 (.val 5) nanPoly = .ok none :=
  ⟨(nonfinite_ring_excluded_C5 ⟨5, 5⟩ 0 0 1000).1 (.val 5) infPoly infRing rfl
      ⟨(.inf, .val 0), by decide, Or.inl rfl⟩,
   (nonfinite_ring_excluded_C5 ⟨5, 5⟩ 0 0 1000).1 (.val 5) nanPoly nanRing rfl
      ⟨(.val 1, .nan), by decide, Or.inr rfl⟩⟩

/-- C6 (amended): for every tag dictionary and every configuration with
positive default and per-level heights, the Height Estimator returns a
single finite height.  (The claim's "positive" fails: an explicit
`height` tag parsing to `0` or a negative value is returned as-is — see
the counterexample.) -/
theorem height_finite_C6 (cfg : HeightCfg) (tags : Tags)
    (_hd : 0 < cfg.defaultHeight) (_hl : 0 < cfg.levelHeight) :
    ∃ q : ℚ, get_height cfg tags = .ok (.val q) :=
  get_height_finite cfg tags

theorem height_finite_C6_witness :
    (0 : ℚ) < 5 ∧ ∃ q : ℚ, get_height ⟨5, 5⟩ [] = .ok (.val q) :=
  ⟨by norm_num, height_finite_C6 ⟨5, 5⟩ [] (by norm_num) (by norm_num)⟩

/-- C6 counterexample: with the positive configuration `(5, 5)`, the
tag dictionary `{"height": "0"}` makes the estimator return `0.0`,
which is not positive. -/
theorem height_zero_C6cex :
    get_height ⟨5, 5⟩ [("height", .str "0")] = .ok (.val 0)
    ∧ ¬ (0 : ℚ) < 0 :=
  ⟨by decide, by norm_num⟩

/-- C7 (amended): when the explicit height tag holds a (truthy) string,
the first rule removes every occurrence of the character `m` anywhere
in the string (not only a trailing unit suffix) and strips surrounding
whitespace, parses the remainder as a float, and accepts the result if
and only if the parse succeeds with a finite value; otherwise
evaluation falls through to the level-count rule. -/
theorem rule1_C7 (cfg : HeightCfg) (tags : Tags) (s : String)
    (hs : pyGet tags "height" = .str s) (hne : s.isEmpty = false) :
    (∀ q : ℚ, pyParseFloat (pyStrip (removeAllM s)) = some (.val q) →
      get_height cfg tags = .ok (.val q))
    ∧ ((∀ q : ℚ, pyParseFloat (pyStrip (removeAllM s)) ≠ some (.val q)) →
      get_height cfg tags = heightTail cfg tags) := by
  have ht : truthy (pyGet tags "height") = true := by
    rw [hs]
    simp [truthy, hne]
  constructor
  · intro q hq
    refine get_height_rule1_ok cfg tags q ht ?_
    rw [hs]
    unfold rule1Val
    dsimp only
    rw [hq]
  · intro hq
    cases hp : pyParseFloat (pyStrip (removeAllM s)) with
    | none =>
      refine get_height_rule1_fail cfg tags ht ?_
      rw [hs]
      unfold rule1Val
      dsimp only
      rw [hp]
    | some v =>
      have hr : rule1Val (pyGet tags "height") = .ok v := by
        rw [hs]
        unfold rule1Val
        dsimp only
        rw [hp]
      have hv : v.isfinite = false := by
        cases v with
        | val q => exact absurd hp (hq q)
        | nan => rfl
        | inf => rfl
        | ninf => rfl
      exact get_height_rule1_nonfinite cfg tags v ht hr hv

theorem rule1_C7_witness :
    get_height ⟨5, 5⟩ [("height", .str "12m")] = .ok (.val 12) :=
  (rule1_C7 ⟨5, 5⟩ [("height", .str "12m")] "12m" rfl rfl).1 12 (by decide)

/-- C7 counterexample: on `{"height": "1m2"}` the code's
`replace("m", "")` yields `"12"`, so the estimator returns `12.0`,
while the rule as the spec describes it (strip a trailing unit suffix
and surrounding whitespace) leaves `"1m2"`, fails to parse, and falls
through to the default `5.0`. -/
theorem unit_strip_C7cex :
    get_height ⟨5, 5⟩ [("height", .str "1m2")] = .ok (.val 12)
    ∧ get_height_spec ⟨5, 5⟩ [("height", .str "1m2")] = .ok (.val 5) :=
  ⟨by decide, by decide⟩

/-- C8: the Height Estimator satisfies the spec's example table:
`{"height": "12m"}` returns `12.0`; `{"building:levels": "3"}` with
per-level height `5.0` returns `15.0`; the empty tag dictionary returns
the configured default height. -/
theorem height_table_C8 (cfg : HeightCfg) :
    get_height ⟨5, 5⟩ [("height", .str "12m")] = .ok (.val 12)
    ∧ get_height ⟨cfg.defaultHeight, 5⟩ [("building:levels", .str "3")] =
        .ok (.val 15)
    ∧ get_height cfg [] = .ok (.val cfg.defaultHeight) := by
  refine ⟨by decide, ?_, ?_⟩
  · rw [get_height_of_falsy _ _ (by decide),
      heightTail_levels _ _ 3 (by decide) (by decide)]
    norm_num
  · rw [get_height_of_falsy _ _ (by decide), heightTail_absent _ _ (by decide)]

/-- C9: for tag dictionaries with string values, a parse failure at any
rule never raises: the estimator always returns a value, and in
particular `{"height": "not-a-number"}` resolves to the configured
default without raising. -/
theorem no_raise_C9 (cfg : HeightCfg) (tags : Tags)
    (_hstr : ∀ k v, (k, v) ∈ tags → ∃ s, v = .str s) :
    (∃ v, get_height cfg tags = .ok v)
    ∧ get_height cfg [("height", .str "not-a-number")] =
        .ok (.val cfg.defaultHeight) := by
  constructor
  · obtain ⟨q, hq⟩ := get_height_finite cfg tags
    exact ⟨.val q, hq⟩
  · rw [get_height_rule1_fail _ _ (by decide) (by decide),
      heightTail_absent _ _ (by decide)]

theorem no_raise_C9_witness :
    ∃ v, get_height ⟨5, 5⟩ [("height", .str "not-a-number")] = .ok v :=
  (no_raise_C9 ⟨5, 5⟩ [("height", .str "not-a-number")]
    (by intro k v hv; simp at hv; exact ⟨"not-a-number", hv.2⟩)).1

/-- C10: a falsy `height` tag value (numeric 0, empty string, or None)
makes the estimator skip the explicit-height rule entirely, so
`{"height": 0}` returns the configured default; likewise a falsy
level-count value is treated as absent by the second rule. -/
theorem falsy_skipped_C10 (cfg : HeightCfg) (tags : Tags) :
    (truthy (pyGet tags "height") = false →
      get_height cfg tags = heightTail cfg tags)
    ∧ get_height cfg [("height", .num (.val 0))] = .ok (.val cfg.defaultHeight)
    ∧ (truthy (pyGet tags "building:levels") = false →
      heightTail cfg tags = .ok (.val cfg.defaultHeight)) := by
  refine ⟨get_height_of_falsy cfg tags, ?_, heightTail_absent cfg tags⟩
  rw [get_height_of_falsy _ _ (by decide), heightTail_absent _ _ (by decide)]

theorem falsy_skipped_C10_witness :
    (get_height ⟨5, 5⟩ [("height", .str "")] = heightTail ⟨5, 5⟩ [("height", .str "")])
    ∧ get_height ⟨5, 5⟩ [("height", .num (.val 0))] = .ok (.val 5)
    ∧ heightTail ⟨5, 5⟩ [("height", .str "")] = .ok (.val 5) :=
  ⟨(falsy_skipped_C10 ⟨5, 5⟩ [("height", .str "")]).1 (by decide),
   (falsy_skipped_C10 ⟨5, 5⟩ [("height", .str "")]).2.1,
   (falsy_skipped_C10 ⟨5, 5⟩ [("height", .str "")]).2.2 (by decide)⟩

/-- A concrete lossless compressor for witnesses: prepend one header
byte. -/
def wCompress (b : List ℕ) : List ℕ := 0 :: b

/-- Its decompressor. -/
def wDecompress (b : List ℕ) : List ℕ := b.drop 1

/-- A one-tile grouping for witnesses. -/
def wTiles : TileMap := [((0, 0), [Building.mk [] 0])]

/-- A two-tile grouping, inserted in descending key order. -/
def wTiles2 : TileMap := [((1, 0), [Building.mk [] 1]), ((0, 2), [Building.mk [] 2])]

theorem pack_roundtrip_C1_witness :
    wDecompress (wCompress [7]) = [7]
    ∧ ∃ k bs, (k, bs) ∈ wTiles ∧ "0,0" = keyStr k ∧
      wDecompress (((pack_buildings wCompress wTiles).1.drop 0).take 32) =
        encodeTile bs :=
  ⟨rfl, pack_roundtrip_C1 wCompress wDecompress wTiles (fun b => rfl)
    "0,0" ⟨0, 32⟩ (by decide)⟩

theorem pack_index_C2_witness :
    ((pack_buildings wCompress wTiles2).2.map (fun e => e.2.length)).sum =
        (pack_buildings wCompress wTiles2).1.length
    ∧ (pack_buildings wCompress wTiles2).2.map Prod.fst =
        (sortTiles wTiles2).map (fun t => keyStr t.1)
    ∧ (sortTiles wTiles2).Pairwise (fun a b => keyLt a.1 b.1)
    ∧ (pack_buildings wCompress wTiles2).2.Pairwise
        (fun a b => a.2.offset < b.2.offset)
    ∧ (pack_buildings wCompress wTiles2).2.Pairwise
        (fun a b => a.2.offset + a.2.length ≤ b.2.offset ∨
          b.2.offset + b.2.length ≤ a.2.offset) :=
  pack_index_C2 wCompress wTiles2 (fun b => List.cons_ne_nil 0 b) (by decide)

theorem pack_deterministic_C3_witness :
    (pack_buildings wCompress wTiles2).1 =
        ((sortTiles wTiles2).map (fun t => wCompress (encodeTile t.2))).flatten
    ∧ (sortTiles wTiles2).Pairwise (fun a b => keyLt a.1 b.1)
    ∧ (sortTiles wTiles2).Perm wTiles2
    ∧ pack_buildings wCompress wTiles2.reverse = pack_buildings wCompress wTiles2 :=
  pack_deterministic_C3 wCompress wTiles2 wTiles2.reverse (by decide) (by decide)

theorem tile_index_C4_witness :
    (0 : ℚ) < 1000
    ∧ get_tile_index 1500 2500 0 0 1000 = (1, 2)
    ∧ tileOrigin 0 0 1 2 1000 = (1000, 2000) :=
  ⟨by norm_num,
   (tile_index_C4 1500 2500 0 0 1000 1 2 (by norm_num)).2.2.2.2.1,
   (tile_index_C4 1500 2500 0 0 1000 1 2 (by norm_num)).2.2.2.2.2⟩
